import Mathlib

/-!
Verification of the static-file segment metadata layer and the generic
table-inspection utility of this repository.

Shallow embedding conventions:
* Rust `u64` values (`BlockNumber`, `TxNumber`, range endpoints) are embedded
  as `Nat`.  Every call site in the sources keeps `start <= end` for ranges
  (the documented invariant), under which Rust `u64` subtraction coincides
  with truncated `Nat` subtraction; theorems about range arithmetic carry the
  `start <= end` hypothesis so they only speak where the embedding is exact.
  `u64::saturating_sub` is exactly truncated `Nat` subtraction.
* Rust `&str` values are embedded as `List Char`; `str::split('_')` is
  embedded by `splitChar`, and `u64::from_str` by `parseU64` (an optional
  leading plus sign, then one or more decimal digits, value below `2 ^ 64`).
* `&mut self` methods become state-passing functions returning the new value.
-/

/-- Decimal digit character for `d < 10`, as produced by Rust's `u64` Display. -/
def digitChar (d : Nat) : Char := Char.ofNat (48 + d)

/-- Decimal printing of an unsigned integer, most significant digit first:
the embedding of Rust's `{}` formatting of a `u64`. -/
def toDecimal (n : Nat) : List Char :=
  if _h : n < 10 then [digitChar n]
  else toDecimal (n / 10) ++ [digitChar (n % 10)]
decreasing_by exact Nat.div_lt_self (by omega) (by omega)

/-- Reads one ASCII decimal digit. -/
def charToDigit? (c : Char) : Option Nat :=
  if 48 ≤ c.toNat ∧ c.toNat ≤ 57 then some (c.toNat - 48) else none

/-- Accumulating decimal read; fails on the first non-digit. -/
def readDecDigitsAux : List Char → Nat → Option Nat
  | [], acc => some acc
  | c :: rest, acc =>
    match charToDigit? c with
    | some d => readDecDigitsAux rest (acc * 10 + d)
    | none => none

/-- Strips a single leading plus sign, as Rust's unsigned `FromStr` does. -/
def stripPlus (s : List Char) : List Char :=
  match s with
  | c :: rest => if c = '+' then rest else s
  | [] => s

/-- Embedding of Rust's `str::parse::<u64>()`: optional leading `+`, then one
or more decimal digits, rejecting values that overflow a `u64`. -/
def parseU64 (s : List Char) : Option Nat :=
  match stripPlus s with
  | [] => none
  | t =>
    match readDecDigitsAux t 0 with
    | some n => if n < 2 ^ 64 then some n else none
    | none => none

/-- Core of `splitChar`: first token and remaining tokens. -/
def splitCharCore (sep : Char) : List Char → List Char × List (List Char)
  | [] => ([], [])
  | c :: rest =>
    let r := splitCharCore sep rest
    if c = sep then ([], r.1 :: r.2) else (c :: r.1, r.2)

/-- Embedding of Rust's `str::split(sep)`: every separator produces a cut,
empty tokens included; the empty string yields one empty token. -/
def splitChar (sep : Char) (l : List Char) : List (List Char) :=
  (splitCharCore sep l).1 :: (splitCharCore sep l).2

/-- The four static-file segment kinds, from `StaticFileSegment` in
`crates/static-file/types/src/segment.rs`. -/
inductive StaticFileSegment
  | Headers
  | Transactions
  | Receipts
  | BlockMeta
deriving DecidableEq

/-- Canonical lowercase segment name (`as_str`, also the strum `AsRefStr`
serialization used by `filename`). -/
def StaticFileSegment.as_str : StaticFileSegment → List Char
  | .Headers => "headers".toList
  | .Transactions => "transactions".toList
  | .Receipts => "receipts".toList
  | .BlockMeta => "blockmeta".toList

/-- Embedding of the strum-derived `StaticFileSegment::from_str`, which
recognizes exactly the four serialized names. -/
def StaticFileSegment.from_str (s : List Char) : Option StaticFileSegment :=
  if s = "headers".toList then some .Headers
  else if s = "transactions".toList then some .Transactions
  else if s = "receipts".toList then some .Receipts
  else if s = "blockmeta".toList then some .BlockMeta
  else none

/-- Embedding of `StaticFileSegment::iter`, which yields the segments in the
fixed dependency-respecting order. -/
def StaticFileSegment.iter : List StaticFileSegment :=
  [.Headers, .BlockMeta, .Transactions, .Receipts]

/-- Embedding of `StaticFileSegment::is_tx_based`. -/
def StaticFileSegment.is_tx_based : StaticFileSegment → Bool
  | .Receipts | .Transactions => true
  | _ => false

/-- Embedding of `StaticFileSegment::is_block_based`. -/
def StaticFileSegment.is_block_based : StaticFileSegment → Bool
  | .Headers | .BlockMeta => true
  | _ => false

/-- Inclusive numeric range, from `SegmentRangeInclusive`. -/
structure SegmentRangeInclusive where
  start : Nat
  «end» : Nat
deriving DecidableEq

/-- Embedding of `SegmentRangeInclusive::new`; no validation of `s ≤ e`. -/
def SegmentRangeInclusive.new (s e : Nat) : SegmentRangeInclusive := ⟨s, e⟩

/-- Modelled from the spec: the `Compression` enum is repository code outside
the supplied sources; the spec fixes only that each value has a
compression-algorithm name used as the final filename token (`lz4`, `zstd`,
`zstd-dict` in the literal filename scenarios). -/
inductive Compression
  | Lz4
  | Zstd
  | ZstdWithDictionary
deriving DecidableEq

/-- Modelled from the spec: the name token each compression value contributes
to `filename_with_configuration`. -/
def Compression.as_ref : Compression → List Char
  | .Lz4 => "lz4".toList
  | .Zstd => "zstd".toList
  | .ZstdWithDictionary => "zstd-dict".toList

/-- Embedding of `StaticFileSegment::filename`:
`format!("static_file_{}_{}_{}", self.as_ref(), start, end)`. -/
def StaticFileSegment.filename (segment : StaticFileSegment)
    (block_range : SegmentRangeInclusive) : List Char :=
  "static_file_".toList ++ segment.as_str ++
    ('_' :: toDecimal block_range.start) ++ ('_' :: toDecimal block_range.«end»)

/-- Embedding of `StaticFileSegment::filename_with_configuration`: the plain
filename plus the literal filters placeholder `none` and the compression name. -/
def StaticFileSegment.filename_with_configuration (segment : StaticFileSegment)
    (compression : Compression) (block_range : SegmentRangeInclusive) : List Char :=
  segment.filename block_range ++ ('_' :: "none".toList) ++ ('_' :: compression.as_ref)

/-- Token-level body of `parse_filename`, operating on the `'_'`-separated
tokens: two literal tokens `static` and `file`, a segment name, two `u64`
components with `start ≤ end`; trailing tokens are ignored. -/
def parseTokens (toks : List (List Char)) :
    Option (StaticFileSegment × SegmentRangeInclusive) :=
  match toks with
  | t1 :: t2 :: rest =>
    if t1 = "static".toList ∧ t2 = "file".toList then
      match rest with
      | seg :: rest2 =>
        match StaticFileSegment.from_str seg with
        | some segment =>
          match rest2 with
          | s1 :: rest3 =>
            match parseU64 s1 with
            | some block_start =>
              match rest3 with
              | s2 :: _ =>
                match parseU64 s2 with
                | some block_end =>
                  if block_start > block_end then none
                  else some (segment, SegmentRangeInclusive.new block_start block_end)
                | none => none
              | [] => none
            | none => none
          | [] => none
        | none => none
      | [] => none
    else none
  | _ => none

/-- Embedding of `StaticFileSegment::parse_filename`. -/
def StaticFileSegment.parse_filename (name : List Char) :
    Option (StaticFileSegment × SegmentRangeInclusive) :=
  parseTokens (splitChar '_' name)

/-- Per-file metadata, from `SegmentHeader`. -/
structure SegmentHeader where
  expected_block_range : SegmentRangeInclusive
  block_range : Option SegmentRangeInclusive
  tx_range : Option SegmentRangeInclusive
  segment : StaticFileSegment
deriving DecidableEq

/-- Embedding of `SegmentHeader::new`. -/
def SegmentHeader.new (expected_block_range : SegmentRangeInclusive)
    (block_range tx_range : Option SegmentRangeInclusive)
    (segment : StaticFileSegment) : SegmentHeader :=
  ⟨expected_block_range, block_range, tx_range, segment⟩

/-- Embedding of `SegmentHeader::expected_block_start`. -/
def SegmentHeader.expected_block_start (h : SegmentHeader) : Nat :=
  h.expected_block_range.start

/-- Embedding of `SegmentHeader::increment_block`; returns the updated header
and the returned block number. -/
def SegmentHeader.increment_block (h : SegmentHeader) : SegmentHeader × Nat :=
  match h.block_range with
  | some block_range =>
    ({ h with block_range := some { block_range with «end» := block_range.«end» + 1 } },
      block_range.«end» + 1)
  | none =>
    let s := h.expected_block_start
    ({ h with block_range := some (SegmentRangeInclusive.new s s) }, s)

/-- Embedding of `SegmentHeader::increment_tx`. -/
def SegmentHeader.increment_tx (h : SegmentHeader) : SegmentHeader :=
  if h.segment.is_tx_based then
    match h.tx_range with
    | some tx_range => { h with tx_range := some { tx_range with «end» := tx_range.«end» + 1 } }
    | none => { h with tx_range := some (SegmentRangeInclusive.new 0 0) }
  else h

/-- Embedding of `SegmentHeader::prune`.  `range.end - range.start` is the
`u64` span (exact for `start ≤ end`, the documented invariant), and
`saturating_sub` is truncated `Nat` subtraction. -/
def SegmentHeader.prune (h : SegmentHeader) (num : Nat) : SegmentHeader :=
  if h.segment.is_block_based then
    match h.block_range with
    | some range =>
      if num > range.«end» - range.start then { h with block_range := none }
      else { h with block_range := some { range with «end» := range.«end» - num } }
    | none => h
  else
    match h.tx_range with
    | some range =>
      if num > range.«end» - range.start then { h with tx_range := none }
      else { h with tx_range := some { range with «end» := range.«end» - num } }
    | none => h

/-- Embedding of `SegmentHeader::set_block_range` (unconditional overwrite). -/
def SegmentHeader.set_block_range (h : SegmentHeader) (block_start block_end : Nat) :
    SegmentHeader :=
  { h with block_range := some (SegmentRangeInclusive.new block_start block_end) }

/-- Embedding of `SegmentHeader::set_tx_range` (unconditional overwrite,
with no guard on the segment kind). -/
def SegmentHeader.set_tx_range (h : SegmentHeader) (tx_start tx_end : Nat) :
    SegmentHeader :=
  { h with tx_range := some (SegmentRangeInclusive.new tx_start tx_end) }

/-- Iterated `increment_block`, keeping only the header. -/
def incBlocks (h : SegmentHeader) : Nat → SegmentHeader
  | 0 => h
  | n + 1 => (incBlocks h n).increment_block.1

/-- Raw table row: key bytes and value bytes, from `TableRawRow`.  The
`Decode`/`Decompress` step of `DbTool::list` is type-directed and lossless on
the raw byte tables modelled here, so rows are kept as their raw bytes. -/
abbrev Row := List Nat × List Nat

/-- Tests whether `pat` is an initial segment of `hay`. -/
def startsWithSeq : List Nat → List Nat → Bool
  | [], _ => true
  | _ :: _, [] => false
  | a :: ps, b :: hs => a = b && startsWithSeq ps hs

/-- Tests whether `pat` occurs contiguously in `hay`: the embedding of a
successful `BMByte::find_first_in`. -/
def occursIn (pat : List Nat) : List Nat → Bool
  | [] => startsWithSeq pat []
  | b :: hs => startsWithSeq pat (b :: hs) || occursIn pat hs

/-- Filter configuration of the table-inspection utility, from `ListFilter`. -/
structure ListFilter where
  skip : Nat
  len : Nat
  search : List Nat
  min_row_size : Nat
  min_key_size : Nat
  min_value_size : Nat
  reverse : Bool
  only_count : Bool

/-- Embedding of the `map_filter` closure inside `DbTool::list`: the returned
row (`none` when filtered out or `only_count`) and the increment applied to
the `hits` counter. -/
def mapFilterRow (f : ListFilter) (bmb : Option (List Nat)) (row : Row) :
    Option Row × Nat :=
  let (key, value) := row
  if key.length + value.length < f.min_row_size then (none, 0)
  else if key.length < f.min_key_size then (none, 0)
  else if value.length < f.min_value_size then (none, 0)
  else
    let result : Option Row := if f.only_count then none else some (key, value)
    match bmb with
    | some pat =>
      if occursIn pat value || occursIn pat key then (result, 1) else (none, 0)
    | none => (result, 1)

/-- Embedding of `.filter_map(map_filter).take(len).collect()` over the rows
remaining after `skip`, with the `hits` accumulator: `take` stops pulling rows
once `n` filtered rows have been produced, so later rows are never examined. -/
def listWalk (f : ListFilter) (bmb : Option (List Nat)) :
    List Row → Nat → Nat → List Row × Nat
  | _, 0, hits => ([], hits)
  | [], _ + 1, hits => ([], hits)
  | row :: rest, n + 1, hits =>
    match mapFilterRow f bmb row with
    | (some r, dh) =>
      let out := listWalk f bmb rest n (hits + dh)
      (r :: out.1, out.2)
    | (none, dh) => listWalk f bmb rest (n + 1) (hits + dh)

/-- Embedding of `DbTool::list` over the table contents `rows` (in forward
cursor order).  `BMByte::from` yields a searcher exactly for a nonempty
pattern, so the "Invalid search" bail is unreachable; `walk_back` traverses
the rows in reverse; `skip` drops raw rows before the filter runs. -/
def DbTool.list (f : ListFilter) (rows : List Row) : List Row × Nat :=
  let bmb : Option (List Nat) := if f.search = [] then none else some f.search
  let walked := if f.reverse then rows.reverse else rows
  listWalk f bmb (walked.drop f.skip) f.len 0

/-- Modelled from the spec: a per-row filter applying the byte search BEFORE
the size thresholds ("filtering applies multi-pattern byte search ... before
size thresholds are applied"): a matching row is counted as a hit first and
the size thresholds only then discard it. -/
def mapFilterRowSearchBeforeSizes (f : ListFilter) (bmb : Option (List Nat))
    (row : Row) : Option Row × Nat :=
  let (key, value) := row
  let hit : Bool :=
    match bmb with
    | some pat => occursIn pat value || occursIn pat key
    | none => true
  if hit then
    if key.length + value.length < f.min_row_size then (none, 1)
    else if key.length < f.min_key_size then (none, 1)
    else if value.length < f.min_value_size then (none, 1)
    else ((if f.only_count then none else some (key, value)), 1)
  else (none, 0)

/-- The `listWalk` loop over the spec-ordered per-row filter. -/
def listWalkSearchBeforeSizes (f : ListFilter) (bmb : Option (List Nat)) :
    List Row → Nat → Nat → List Row × Nat
  | _, 0, hits => ([], hits)
  | [], _ + 1, hits => ([], hits)
  | row :: rest, n + 1, hits =>
    match mapFilterRowSearchBeforeSizes f bmb row with
    | (some r, dh) =>
      let out := listWalkSearchBeforeSizes f bmb rest n (hits + dh)
      (r :: out.1, out.2)
    | (none, dh) => listWalkSearchBeforeSizes f bmb rest (n + 1) (hits + dh)

/-- Modelled from the spec: `DbTool::list` as the claim describes it, with the
byte search applied before the size thresholds. -/
def DbToolListSearchBeforeSizes (f : ListFilter) (rows : List Row) :
    List Row × Nat :=
  let bmb : Option (List Nat) := if f.search = [] then none else some f.search
  let walked := if f.reverse then rows.reverse else rows
  listWalkSearchBeforeSizes f bmb (walked.drop f.skip) f.len 0

/-- Size thresholds of `ListFilter`, satisfied by a row. -/
def rowPassesSizes (f : ListFilter) (row : Row) : Prop :=
  f.min_row_size ≤ row.1.length + row.2.length ∧
    f.min_key_size ≤ row.1.length ∧ f.min_value_size ≤ row.2.length

instance (f : ListFilter) (row : Row) : Decidable (rowPassesSizes f row) := by
  unfold rowPassesSizes; infer_instance

/-- Search match of a row: the pattern occurs in the value bytes or in the
key bytes. -/
def rowMatchesSearch (pat : List Nat) (row : Row) : Prop :=
  occursIn pat row.2 = true ∨ occursIn pat row.1 = true

instance (pat : List Nat) (row : Row) : Decidable (rowMatchesSearch pat row) := by
  unfold rowMatchesSearch; infer_instance

theorem digitChar_toNat {d : Nat} (h : d < 10) : (digitChar d).toNat = 48 + d := by
  interval_cases d <;> decide

theorem charToDigit?_digitChar {d : Nat} (h : d < 10) :
    charToDigit? (digitChar d) = some d := by
  interval_cases d <;> decide

theorem toDecimal_lt {n : Nat} (h : n < 10) : toDecimal n = [digitChar n] := by
  rw [toDecimal]; simp [h]

theorem toDecimal_ge {n : Nat} (h : ¬ n < 10) :
    toDecimal n = toDecimal (n / 10) ++ [digitChar (n % 10)] := by
  rw [toDecimal]; simp [h]

theorem toDecimal_digits (n : Nat) : ∀ c ∈ toDecimal n, 48 ≤ c.toNat ∧ c.toNat ≤ 57 := by
  induction n using Nat.strong_induction_on with
  | _ n ih =>
    by_cases h : n < 10
    · rw [toDecimal_lt h]
      intro c hc
      rw [List.mem_singleton] at hc
      subst hc
      rw [digitChar_toNat h]
      omega
    · rw [toDecimal_ge h]
      intro c hc
      rcases List.mem_append.mp hc with h1 | h2
      · exact ih (n / 10) (Nat.div_lt_self (by omega) (by omega)) c h1
      · rw [List.mem_singleton] at h2
        subst h2
        rw [digitChar_toNat (Nat.mod_lt n (by omega))]
        omega

theorem toDecimal_ne_nil (n : Nat) : toDecimal n ≠ [] := by
  by_cases h : n < 10
  · rw [toDecimal_lt h]; simp
  · rw [toDecimal_ge h]; simp

theorem underscore_not_mem_toDecimal (n : Nat) : '_' ∉ toDecimal n := by
  intro hm
  have h2 := toDecimal_digits n '_' hm
  have h3 : ('_').toNat = 95 := rfl
  omega

theorem readDecDigitsAux_append (l1 l2 : List Char) (a : Nat) :
    readDecDigitsAux (l1 ++ l2) a =
      match readDecDigitsAux l1 a with
      | some b => readDecDigitsAux l2 b
      | none => none := by
  induction l1 generalizing a with
  | nil => simp [readDecDigitsAux]
  | cons c rest ih =>
    simp only [List.cons_append, readDecDigitsAux]
    cases charToDigit? c with
    | some d => exact ih (a * 10 + d)
    | none => rfl

theorem readDecDigitsAux_toDecimal (n : Nat) :
    ∀ a, readDecDigitsAux (toDecimal n) a =
      some (a * 10 ^ (toDecimal n).length + n) := by
  induction n using Nat.strong_induction_on with
  | _ n ih =>
    intro a
    by_cases h : n < 10
    · rw [toDecimal_lt h]
      simp [readDecDigitsAux, charToDigit?_digitChar h]
    · rw [toDecimal_ge h, readDecDigitsAux_append,
        ih (n / 10) (Nat.div_lt_self (by omega) (by omega)) a]
      simp only [readDecDigitsAux, charToDigit?_digitChar (Nat.mod_lt n (by omega))]
      congr 1
      have hdm := Nat.div_add_mod n 10
      simp [List.length_append, pow_succ]
      ring_nf
      omega

theorem parseU64_toDecimal {n : Nat} (h : n < 2 ^ 64) :
    parseU64 (toDecimal n) = some n := by
  obtain ⟨c, rest, hc⟩ : ∃ c rest, toDecimal n = c :: rest := by
    cases hd : toDecimal n with
    | nil => exact absurd hd (toDecimal_ne_nil n)
    | cons c rest => exact ⟨c, rest, rfl⟩
  have hcd : 48 ≤ c.toNat ∧ c.toNat ≤ 57 := toDecimal_digits n c (by rw [hc]; simp)
  have hplus : c ≠ '+' := by
    intro hq
    subst hq
    have : ('+').toNat = 43 := rfl
    omega
  have hstrip : stripPlus (toDecimal n) = c :: rest := by
    rw [hc]; simp [stripPlus, hplus]
  have hread := readDecDigitsAux_toDecimal n 0
  rw [hc] at hread
  unfold parseU64
  rw [hstrip]
  simp only [hread, Nat.zero_mul, Nat.zero_add]
  have hpow : (2 : Nat) ^ 64 = 18446744073709551616 := by norm_num
  rw [hpow] at h
  simp [h]

theorem splitCharCore_no_sep {sep : Char} {a : List Char} (h : sep ∉ a) :
    splitCharCore sep a = (a, []) := by
  induction a with
  | nil => rfl
  | cons c rest ih =>
    have hc : c ≠ sep := by
      intro hq; exact h (by rw [hq]; exact List.mem_cons_self _ _)
    have hr : sep ∉ rest := fun hm => h (List.mem_cons_of_mem _ hm)
    simp [splitCharCore, ih hr, hc, Ne.symm hc]

theorem splitCharCore_append_sep {sep : Char} {a : List Char} (b : List Char)
    (h : sep ∉ a) : splitCharCore sep (a ++ sep :: b) = (a, splitChar sep b) := by
  induction a with
  | nil => simp [splitCharCore, splitChar]
  | cons c rest ih =>
    have hc : c ≠ sep := by
      intro hq; exact h (by rw [hq]; exact List.mem_cons_self _ _)
    have hr : sep ∉ rest := fun hm => h (List.mem_cons_of_mem _ hm)
    simp [splitCharCore, ih hr, hc]

theorem splitChar_append_sep {sep : Char} {a : List Char} (b : List Char)
    (h : sep ∉ a) : splitChar sep (a ++ sep :: b) = a :: splitChar sep b := by
  simp [splitChar, splitCharCore_append_sep b h]

theorem splitChar_no_sep {sep : Char} {a : List Char} (h : sep ∉ a) :
    splitChar sep a = [a] := by
  simp [splitChar, splitCharCore_no_sep h]

theorem underscore_not_mem_as_str (k : StaticFileSegment) : '_' ∉ k.as_str := by
  cases k <;> decide

theorem static_file_prefix_decomp :
    ("static_file_".toList : List Char) = "static".toList ++ '_' :: ("file".toList ++ ['_']) := by
  decide

theorem filename_decomp (k : StaticFileSegment) (r : SegmentRangeInclusive) :
    k.filename r = "static".toList ++ '_' :: ("file".toList ++ '_' ::
      (k.as_str ++ '_' :: (toDecimal r.start ++ '_' :: toDecimal r.«end»))) := by
  simp [StaticFileSegment.filename, static_file_prefix_decomp, List.append_assoc]

theorem splitChar_filename (k : StaticFileSegment) (r : SegmentRangeInclusive) :
    splitChar '_' (k.filename r) =
      ["static".toList, "file".toList, k.as_str, toDecimal r.start, toDecimal r.«end»] := by
  rw [filename_decomp,
    splitChar_append_sep _ (by decide),
    splitChar_append_sep _ (by decide),
    splitChar_append_sep _ (underscore_not_mem_as_str k),
    splitChar_append_sep _ (underscore_not_mem_toDecimal r.start),
    splitChar_no_sep (underscore_not_mem_toDecimal r.«end»)]

theorem filename_with_configuration_decomp (k : StaticFileSegment) (c : Compression)
    (r : SegmentRangeInclusive) :
    k.filename_with_configuration c r = "static".toList ++ '_' :: ("file".toList ++ '_' ::
      (k.as_str ++ '_' :: (toDecimal r.start ++ '_' :: (toDecimal r.«end» ++ '_' ::
        ("none".toList ++ '_' :: c.as_ref))))) := by
  simp [StaticFileSegment.filename_with_configuration, StaticFileSegment.filename,
    static_file_prefix_decomp, List.append_assoc]

theorem splitChar_filename_with_configuration (k : StaticFileSegment) (c : Compression)
    (r : SegmentRangeInclusive) :
    splitChar '_' (k.filename_with_configuration c r) =
      "static".toList :: "file".toList :: k.as_str :: toDecimal r.start ::
        toDecimal r.«end» :: splitChar '_' ("none".toList ++ '_' :: c.as_ref) := by
  rw [filename_with_configuration_decomp,
    splitChar_append_sep _ (by decide),
    splitChar_append_sep _ (by decide),
    splitChar_append_sep _ (underscore_not_mem_as_str k),
    splitChar_append_sep _ (underscore_not_mem_toDecimal r.start),
    splitChar_append_sep _ (underscore_not_mem_toDecimal r.«end»)]

theorem from_str_as_str (k : StaticFileSegment) :
    StaticFileSegment.from_str k.as_str = some k := by
  cases k <;> decide

theorem parseTokens_roundtrip (k : StaticFileSegment) (s e : Nat)
    (rest : List (List Char)) (hle : s ≤ e) (hlt : e < 2 ^ 64) :
    parseTokens ("static".toList :: "file".toList :: k.as_str ::
        toDecimal s :: toDecimal e :: rest) =
      some (k, SegmentRangeInclusive.new s e) := by
  have hs : s < 2 ^ 64 := lt_of_le_of_lt hle hlt
  simp only [parseTokens, from_str_as_str, parseU64_toDecimal hs, parseU64_toDecimal hlt]
  rw [if_pos (And.intro trivial trivial), if_neg (by omega : ¬ s > e)]

/-- Claim C1: for every `StaticFileSegment` kind and every `SegmentRangeInclusive`
range (a pair of `u64` values satisfying the documented `start ≤ end` invariant),
`parse_filename (filename kind range)` returns `some (kind, range)`. -/
theorem claim1_filename_parse_roundtrip (k : StaticFileSegment)
    (r : SegmentRangeInclusive) (hle : r.start ≤ r.«end») (hlt : r.«end» < 2 ^ 64) :
    StaticFileSegment.parse_filename (k.filename r) = some (k, r) := by
  unfold StaticFileSegment.parse_filename
  rw [splitChar_filename]
  exact parseTokens_roundtrip k r.start r.«end» [] hle hlt

/-- Witness for claim C1 at the kind `Headers` and the range `[2, 30]`. -/
theorem claim1_witness :
    (2 : Nat) ≤ 30 ∧ (30 : Nat) < 2 ^ 64 ∧
      StaticFileSegment.parse_filename
        (StaticFileSegment.Headers.filename (SegmentRangeInclusive.new 2 30)) =
        some (StaticFileSegment.Headers, SegmentRangeInclusive.new 2 30) :=
  ⟨by decide, by decide,
    claim1_filename_parse_roundtrip StaticFileSegment.Headers
      (SegmentRangeInclusive.new 2 30) (by decide) (by decide)⟩

theorem parseTokens_none (toks : List (List Char))
    (h : toks.take 2 ≠ ["static".toList, "file".toList]
      ∨ toks[2]?.bind StaticFileSegment.from_str = none
      ∨ toks[3]?.bind parseU64 = none
      ∨ toks[4]?.bind parseU64 = none
      ∨ ∃ s e, toks[3]?.bind parseU64 = some s ∧ toks[4]?.bind parseU64 = some e ∧ e < s) :
    parseTokens toks = none := by
  rcases toks with _ | ⟨t1, _ | ⟨t2, rest⟩⟩
  · rfl
  · rfl
  · by_cases hpre : t1 = "static".toList ∧ t2 = "file".toList
    · obtain ⟨h1, h2⟩ := hpre
      subst h1; subst h2
      rcases rest with _ | ⟨t3, rest2⟩
      · rfl
      · cases hfs : StaticFileSegment.from_str t3 with
        | none => simp [parseTokens, hfs]
        | some seg =>
          rcases rest2 with _ | ⟨t4, rest3⟩
          · simp [parseTokens, hfs]
          · cases hp4 : parseU64 t4 with
            | none => simp [parseTokens, hfs, hp4]
            | some s =>
              rcases rest3 with _ | ⟨t5, rest4⟩
              · simp [parseTokens, hfs, hp4]
              · cases hp5 : parseU64 t5 with
                | none => simp [parseTokens, hfs, hp4, hp5]
                | some e2 =>
                  rcases h with h | h | h | h | ⟨s', e', hs', he', hlt⟩
                  · simp at h
                  · simp [hfs] at h
                  · simp [hp4] at h
                  · simp [hp5] at h
                  · simp [hp4] at hs'
                    simp [hp5] at he'
                    subst hs'
                    subst he'
                    simp [parseTokens, hfs, hp4, hp5]
                    omega
    · simp only [parseTokens]
      rw [if_neg hpre]

/-- Claim C7: `parse_filename` returns `none`, uniformly with no
distinguishable cause, whenever (over the `'_'`-separated tokens of the name)
the first two tokens are not `static` and `file`, the third token is missing
or is not one of the four segment names, the fourth or fifth token is missing
or does not parse as an unsigned integer, or the parsed range has
`start > end`. -/
theorem claim7_parse_filename_rejects (name : List Char)
    (h : (splitChar '_' name).take 2 ≠ ["static".toList, "file".toList]
      ∨ (splitChar '_' name)[2]?.bind StaticFileSegment.from_str = none
      ∨ (splitChar '_' name)[3]?.bind parseU64 = none
      ∨ (splitChar '_' name)[4]?.bind parseU64 = none
      ∨ ∃ s e, (splitChar '_' name)[3]?.bind parseU64 = some s ∧
          (splitChar '_' name)[4]?.bind parseU64 = some e ∧ e < s) :
    StaticFileSegment.parse_filename name = none :=
  parseTokens_none _ h

/-- Witness for claim C7: the truncated names `static_file_headers_2` and
`static_file_headers_` are both rejected. -/
theorem claim7_witness :
    StaticFileSegment.parse_filename ("static_file_headers_2".toList) = none ∧
    StaticFileSegment.parse_filename ("static_file_headers_".toList) = none :=
  ⟨claim7_parse_filename_rejects _ (Or.inr (Or.inr (Or.inr (Or.inl (by decide))))),
    claim7_parse_filename_rejects _ (Or.inr (Or.inr (Or.inl (by decide))))⟩

/-- Claim C5: for every kind, every range (`u64` pair with `start ≤ end`) and
any `Compression` value, parsing the configured filename returns
`some (kind, range)`; the trailing filters/compression tokens are not
consumed, so `filename` output and `filename_with_configuration` output parse
to the same pair. -/
theorem claim5_filename_with_configuration_roundtrip (k : StaticFileSegment)
    (c : Compression) (r : SegmentRangeInclusive)
    (hle : r.start ≤ r.«end») (hlt : r.«end» < 2 ^ 64) :
    StaticFileSegment.parse_filename (k.filename_with_configuration c r) = some (k, r) ∧
    StaticFileSegment.parse_filename (k.filename_with_configuration c r) =
      StaticFileSegment.parse_filename (k.filename r) := by
  have h1 : StaticFileSegment.parse_filename (k.filename_with_configuration c r)
      = some (k, r) := by
    unfold StaticFileSegment.parse_filename
    rw [splitChar_filename_with_configuration]
    exact parseTokens_roundtrip k r.start r.«end» _ hle hlt
  have h2 : StaticFileSegment.parse_filename (k.filename r) = some (k, r) := by
    unfold StaticFileSegment.parse_filename
    rw [splitChar_filename]
    exact parseTokens_roundtrip k r.start r.«end» [] hle hlt
  exact ⟨h1, h1.trans h2.symm⟩

/-- Witness for claim C5 at `Headers`, `Lz4` and the range `[2, 30]`. -/
theorem claim5_witness :
    (2 : Nat) ≤ 30 ∧ (30 : Nat) < 2 ^ 64 ∧
      StaticFileSegment.parse_filename
        (StaticFileSegment.Headers.filename_with_configuration Compression.Lz4
          (SegmentRangeInclusive.new 2 30)) =
        some (StaticFileSegment.Headers, SegmentRangeInclusive.new 2 30) :=
  ⟨by decide, by decide,
    (claim5_filename_with_configuration_roundtrip StaticFileSegment.Headers
      Compression.Lz4 (SegmentRangeInclusive.new 2 30) (by decide) (by decide)).1⟩

/-- Claim C9: `StaticFileSegment.iter` always yields exactly the four-element
sequence `[Headers, BlockMeta, Transactions, Receipts]`, in that order. -/
theorem claim9_iter_order :
    StaticFileSegment.iter = [StaticFileSegment.Headers, StaticFileSegment.BlockMeta,
      StaticFileSegment.Transactions, StaticFileSegment.Receipts] ∧
    StaticFileSegment.iter.length = 4 ∧
    ∀ s : StaticFileSegment, s ∈ StaticFileSegment.iter := by
  refine ⟨rfl, rfl, ?_⟩
  intro s
  cases s <;> simp [StaticFileSegment.iter]

/-- Claim C2: `prune num` never fails (it is a total function) and acts only
on the range governing the kind: with the governing range `some r` (with the
documented `r.start ≤ r.end` invariant, under which the embedding matches the
`u64` arithmetic exactly), if `num` exceeds the span `r.end - r.start` the
range becomes `none`, otherwise the end is reduced by `num` (saturating
subtraction) and the start is unchanged; with the governing range `none`,
`prune` is a no-op.  The non-governing range is never touched. -/
theorem claim2_prune_spec (h : SegmentHeader) (num : Nat) :
    (h.segment.is_block_based = true →
      ((h.prune num).tx_range = h.tx_range) ∧
      (h.block_range = none → h.prune num = h) ∧
      (∀ r, h.block_range = some r → r.start ≤ r.«end» →
        (r.«end» - r.start < num → (h.prune num).block_range = none) ∧
        (num ≤ r.«end» - r.start →
          (h.prune num).block_range =
            some (SegmentRangeInclusive.new r.start (r.«end» - num))))) ∧
    (h.segment.is_tx_based = true →
      ((h.prune num).block_range = h.block_range) ∧
      (h.tx_range = none → h.prune num = h) ∧
      (∀ r, h.tx_range = some r → r.start ≤ r.«end» →
        (r.«end» - r.start < num → (h.prune num).tx_range = none) ∧
        (num ≤ r.«end» - r.start →
          (h.prune num).tx_range =
            some (SegmentRangeInclusive.new r.start (r.«end» - num))))) := by
  constructor
  · intro hb
    refine ⟨?_, ?_, ?_⟩
    · cases hr : h.block_range with
      | none => simp [SegmentHeader.prune, hb, hr]
      | some r =>
        by_cases hn : num > r.«end» - r.start <;>
          simp [SegmentHeader.prune, hb, hr, hn]
    · intro hn
      simp [SegmentHeader.prune, hb, hn]
    · intro r hr hle
      constructor
      · intro hgt
        have hn : num > r.«end» - r.start := by omega
        simp [SegmentHeader.prune, hb, hr, hn]
      · intro hle2
        have hn : ¬ num > r.«end» - r.start := by omega
        simp [SegmentHeader.prune, hb, hr, hn, SegmentRangeInclusive.new]
  · intro ht
    have hb : h.segment.is_block_based = false := by
      cases hk : h.segment <;> rw [hk] at ht <;> first | rfl | exact absurd ht (by decide)
    refine ⟨?_, ?_, ?_⟩
    · cases hr : h.tx_range with
      | none => simp [SegmentHeader.prune, hb, hr]
      | some r =>
        by_cases hn : num > r.«end» - r.start <;>
          simp [SegmentHeader.prune, hb, hr, hn]
    · intro hn
      simp [SegmentHeader.prune, hb, hn]
    · intro r hr hle
      constructor
      · intro hgt
        have hn : num > r.«end» - r.start := by omega
        simp [SegmentHeader.prune, hb, hr, hn]
      · intro hle2
        have hn : ¬ num > r.«end» - r.start := by omega
        simp [SegmentHeader.prune, hb, hr, hn, SegmentRangeInclusive.new]

/-- Witness for claim C2: on a header with `block_range = [5, 10]`,
`prune 10` collapses the range to `none` and `prune 3` yields `[5, 7]`. -/
theorem claim2_witness :
    ((SegmentHeader.new (SegmentRangeInclusive.new 0 10)
        (some (SegmentRangeInclusive.new 5 10)) none StaticFileSegment.Headers).prune
        10).block_range = none ∧
    ((SegmentHeader.new (SegmentRangeInclusive.new 0 10)
        (some (SegmentRangeInclusive.new 5 10)) none StaticFileSegment.Headers).prune
        3).block_range = some (SegmentRangeInclusive.new 5 7) :=
  ⟨(((claim2_prune_spec (SegmentHeader.new (SegmentRangeInclusive.new 0 10)
        (some (SegmentRangeInclusive.new 5 10)) none StaticFileSegment.Headers) 10).1
      rfl).2.2 (SegmentRangeInclusive.new 5 10) rfl (by decide)).1 (by decide),
    (((claim2_prune_spec (SegmentHeader.new (SegmentRangeInclusive.new 0 10)
        (some (SegmentRangeInclusive.new 5 10)) none StaticFileSegment.Headers) 3).1
      rfl).2.2 (SegmentRangeInclusive.new 5 10) rfl (by decide)).2 (by decide)⟩

theorem increment_block_some (h : SegmentHeader) (r : SegmentRangeInclusive)
    (hr : h.block_range = some r) :
    h.increment_block =
      ({ h with block_range := some (SegmentRangeInclusive.new r.start (r.«end» + 1)) },
        r.«end» + 1) := by
  unfold SegmentHeader.increment_block
  rw [hr]
  rfl

theorem increment_block_none (h : SegmentHeader) (hr : h.block_range = none) :
    h.increment_block =
      ({ h with block_range := some (SegmentRangeInclusive.new h.expected_block_start
          h.expected_block_start) }, h.expected_block_start) := by
  unfold SegmentHeader.increment_block
  rw [hr]

/-- Claim C3: if `block_range` is `some r`, `increment_block` increases its
end by 1 and returns the new end; if `block_range` is `none`, it sets
`block_range` to `[expected_block_start, expected_block_start]` and returns
`expected_block_start`.  Hence from a fresh header with expected range
`[100, 200]` the first call returns `100`, and after `N` further calls
`block_range = [100, 100 + N]`. -/
theorem claim3_increment_block_spec :
    (∀ (h : SegmentHeader) (r : SegmentRangeInclusive), h.block_range = some r →
      h.increment_block =
        ({ h with block_range := some (SegmentRangeInclusive.new r.start (r.«end» + 1)) },
          r.«end» + 1)) ∧
    (∀ h : SegmentHeader, h.block_range = none →
      h.increment_block =
        ({ h with block_range := some (SegmentRangeInclusive.new h.expected_block_start
            h.expected_block_start) }, h.expected_block_start)) ∧
    ((SegmentHeader.new (SegmentRangeInclusive.new 100 200) none none
        StaticFileSegment.Headers).increment_block.2 = 100 ∧
      ∀ N : Nat, (incBlocks (SegmentHeader.new (SegmentRangeInclusive.new 100 200) none none
          StaticFileSegment.Headers) (N + 1)).block_range =
        some (SegmentRangeInclusive.new 100 (100 + N))) := by
  refine ⟨increment_block_some, increment_block_none, rfl, ?_⟩
  intro N
  induction N with
  | zero => rfl
  | succ n ih =>
    show ((incBlocks _ (n + 1)).increment_block).1.block_range = _
    rw [increment_block_some _ _ ih]
    show some (SegmentRangeInclusive.new 100 ((100 + n) + 1)) =
      some (SegmentRangeInclusive.new 100 (100 + (n + 1)))
    rw [Nat.add_assoc]

/-- Witness for claim C3 on a header with `block_range = [5, 7]`. -/
theorem claim3_witness :
    (SegmentHeader.new (SegmentRangeInclusive.new 0 10) (some (SegmentRangeInclusive.new 5 7))
        none StaticFileSegment.Headers).increment_block =
      (SegmentHeader.new (SegmentRangeInclusive.new 0 10) (some (SegmentRangeInclusive.new 5 8))
        none StaticFileSegment.Headers, 8) :=
  claim3_increment_block_spec.1
    (SegmentHeader.new (SegmentRangeInclusive.new 0 10) (some (SegmentRangeInclusive.new 5 7))
      none StaticFileSegment.Headers) (SegmentRangeInclusive.new 5 7) rfl

/-- Counterexample to claim C4: `set_tx_range` has no kind guard, so on a
block-based (`Headers`) header with `tx_range = none` it sets `tx_range` to
`some [0, 5]` — the property `tx_range = none` is not preserved by every
operation of the public interface. -/
theorem claim4_counterexample :
    StaticFileSegment.Headers.is_block_based = true ∧
    (SegmentHeader.new (SegmentRangeInclusive.new 0 0) none none
        StaticFileSegment.Headers).tx_range = none ∧
    ((SegmentHeader.new (SegmentRangeInclusive.new 0 0) none none
        StaticFileSegment.Headers).set_tx_range 0 5).tx_range =
      some (SegmentRangeInclusive.new 0 5) ∧
    ((SegmentHeader.new (SegmentRangeInclusive.new 0 0) none none
        StaticFileSegment.Headers).set_tx_range 0 5).tx_range ≠ none := by
  decide

/-- Claim C4 (amended): for every header of block-based kind with
`tx_range = none`, the property `tx_range = none` is preserved by
`increment_block`, `increment_tx`, `prune` and `set_block_range`; but
`set_tx_range` sets `tx_range` unconditionally, regardless of the kind. -/
theorem claim4_amended_tx_range_none_preserved (h : SegmentHeader) (num s e : Nat)
    (hb : h.segment.is_block_based = true) (ht : h.tx_range = none) :
    (h.increment_block).1.tx_range = none ∧
    (h.increment_tx).tx_range = none ∧
    (h.prune num).tx_range = none ∧
    (h.set_block_range s e).tx_range = none ∧
    (h.set_tx_range s e).tx_range = some (SegmentRangeInclusive.new s e) := by
  have htx : h.segment.is_tx_based = false := by
    cases hk : h.segment <;> rw [hk] at hb <;> first | rfl | exact absurd hb (by decide)
  refine ⟨?_, ?_, ?_, ht, rfl⟩
  · cases hr : h.block_range <;> simp [SegmentHeader.increment_block, hr, ht]
  · simp [SegmentHeader.increment_tx, htx, ht]
  · cases hr : h.block_range with
    | none => simp [SegmentHeader.prune, hb, hr, ht]
    | some r =>
      by_cases hn : num > r.«end» - r.start <;> simp [SegmentHeader.prune, hb, hr, hn, ht]

/-- Witness for the amended claim C4 on a concrete `BlockMeta` header. -/
theorem claim4_witness :
    ((SegmentHeader.new (SegmentRangeInclusive.new 0 9) (some (SegmentRangeInclusive.new 0 9))
        none StaticFileSegment.BlockMeta).increment_block).1.tx_range = none ∧
    ((SegmentHeader.new (SegmentRangeInclusive.new 0 9) (some (SegmentRangeInclusive.new 0 9))
        none StaticFileSegment.BlockMeta).increment_tx).tx_range = none ∧
    ((SegmentHeader.new (SegmentRangeInclusive.new 0 9) (some (SegmentRangeInclusive.new 0 9))
        none StaticFileSegment.BlockMeta).prune 3).tx_range = none ∧
    ((SegmentHeader.new (SegmentRangeInclusive.new 0 9) (some (SegmentRangeInclusive.new 0 9))
        none StaticFileSegment.BlockMeta).set_block_range 1 2).tx_range = none ∧
    ((SegmentHeader.new (SegmentRangeInclusive.new 0 9) (some (SegmentRangeInclusive.new 0 9))
        none StaticFileSegment.BlockMeta).set_tx_range 1 2).tx_range =
      some (SegmentRangeInclusive.new 1 2) :=
  claim4_amended_tx_range_none_preserved
    (SegmentHeader.new (SegmentRangeInclusive.new 0 9) (some (SegmentRangeInclusive.new 0 9))
      none StaticFileSegment.BlockMeta) 3 1 2 rfl rfl

/-- Claim C6: `increment_tx` is a no-op unless the kind is tx-based; on a
tx-based header it initializes `tx_range` to `[0, 0]` when `tx_range` is
`none` and otherwise increments its end by 1; on a `Headers` header it never
changes `tx_range`. -/
theorem claim6_increment_tx_spec (h : SegmentHeader) :
    (h.segment.is_tx_based = false → h.increment_tx = h) ∧
    (h.segment.is_tx_based = true → h.tx_range = none →
      h.increment_tx = { h with tx_range := some (SegmentRangeInclusive.new 0 0) }) ∧
    (h.segment.is_tx_based = true → ∀ r, h.tx_range = some r →
      h.increment_tx =
        { h with tx_range := some (SegmentRangeInclusive.new r.start (r.«end» + 1)) }) ∧
    (h.segment = StaticFileSegment.Headers → (h.increment_tx).tx_range = h.tx_range) := by
  refine ⟨?_, ?_, ?_, ?_⟩
  · intro ht
    simp [SegmentHeader.increment_tx, ht]
  · intro ht hr
    simp [SegmentHeader.increment_tx, ht, hr]
  · intro ht r hr
    simp [SegmentHeader.increment_tx, ht, hr, SegmentRangeInclusive.new]
  · intro hk
    simp [SegmentHeader.increment_tx, hk, StaticFileSegment.is_tx_based]

/-- Witness for claim C6 on concrete `Transactions` and `Headers` headers. -/
theorem claim6_witness :
    (SegmentHeader.new (SegmentRangeInclusive.new 0 0) none none
        StaticFileSegment.Transactions).increment_tx =
      SegmentHeader.new (SegmentRangeInclusive.new 0 0) none
        (some (SegmentRangeInclusive.new 0 0)) StaticFileSegment.Transactions ∧
    (SegmentHeader.new (SegmentRangeInclusive.new 0 0) none
        (some (SegmentRangeInclusive.new 3 9)) StaticFileSegment.Headers).increment_tx =
      SegmentHeader.new (SegmentRangeInclusive.new 0 0) none
        (some (SegmentRangeInclusive.new 3 9)) StaticFileSegment.Headers :=
  ⟨(claim6_increment_tx_spec (SegmentHeader.new (SegmentRangeInclusive.new 0 0) none none
      StaticFileSegment.Transactions)).2.1 rfl rfl,
    (claim6_increment_tx_spec (SegmentHeader.new (SegmentRangeInclusive.new 0 0) none
      (some (SegmentRangeInclusive.new 3 9)) StaticFileSegment.Headers)).1 rfl⟩

/-- Claim C8: `increment_block`, `increment_tx`, `prune`, `set_block_range`
and `set_tx_range` all leave `expected_block_range` and `segment` unchanged. -/
theorem claim8_frame (h : SegmentHeader) (num s e : Nat) :
    ((h.increment_block).1.expected_block_range = h.expected_block_range ∧
      (h.increment_block).1.segment = h.segment) ∧
    ((h.increment_tx).expected_block_range = h.expected_block_range ∧
      (h.increment_tx).segment = h.segment) ∧
    ((h.prune num).expected_block_range = h.expected_block_range ∧
      (h.prune num).segment = h.segment) ∧
    ((h.set_block_range s e).expected_block_range = h.expected_block_range ∧
      (h.set_block_range s e).segment = h.segment) ∧
    ((h.set_tx_range s e).expected_block_range = h.expected_block_range ∧
      (h.set_tx_range s e).segment = h.segment) := by
  refine ⟨?_, ?_, ?_, ⟨rfl, rfl⟩, ⟨rfl, rfl⟩⟩
  · cases hr : h.block_range <;> simp [SegmentHeader.increment_block, hr]
  · cases ht : h.segment.is_tx_based <;> cases hr : h.tx_range <;>
      simp [SegmentHeader.increment_tx, ht, hr]
  · cases hb : h.segment.is_block_based with
    | true =>
      cases hr : h.block_range with
      | none => simp [SegmentHeader.prune, hb, hr]
      | some r =>
        by_cases hn : num > r.«end» - r.start <;> simp [SegmentHeader.prune, hb, hr, hn]
    | false =>
      cases hr : h.tx_range with
      | none => simp [SegmentHeader.prune, hb, hr]
      | some r =>
        by_cases hn : num > r.«end» - r.start <;> simp [SegmentHeader.prune, hb, hr, hn]

theorem listWalk_trivial (f : ListFilter) (h1 : f.min_row_size = 0) (h2 : f.min_key_size = 0)
    (h3 : f.min_value_size = 0) (h4 : f.only_count = false) :
    ∀ (l : List Row) (n hits : Nat),
      listWalk f none l n hits = (l.take n, hits + min n l.length) := by
  intro l
  induction l with
  | nil =>
    intro n hits
    cases n <;> simp [listWalk]
  | cons row rest ih =>
    intro n hits
    cases n with
    | zero => simp [listWalk]
    | succ m =>
      have hm : mapFilterRow f none row = (some row, 1) := by
        rcases row with ⟨k, v⟩
        simp [mapFilterRow, h1, h2, h3, h4]
      simp [listWalk, hm, ih, Nat.succ_min_succ, List.take]
      omega

/-- Claim C10 (amended): in `DbTool::list` the size thresholds are applied
to each row BEFORE the byte search — a row failing a size threshold is never
searched and records no hit — and a row qualifies exactly when it passes all
three size thresholds and the pattern occurs in its value or key bytes;
paging is performed via `skip` (dropping raw rows before the filter) and
`take` of `len` filtered rows. -/
theorem claim10_amended_sizes_before_search :
    (∀ (f : ListFilter) (pat : List Nat) (row : Row),
      mapFilterRow f (some pat) row =
        ((if rowPassesSizes f row ∧ rowMatchesSearch pat row ∧ f.only_count = false
            then some row else none),
          if rowPassesSizes f row ∧ rowMatchesSearch pat row then 1 else 0)) ∧
    (∀ (f : ListFilter) (pat : List Nat) (row : Row),
      ¬ rowPassesSizes f row → mapFilterRow f (some pat) row = (none, 0)) ∧
    (∀ (f : ListFilter) (rows : List Row),
      f.search = [] → f.min_row_size = 0 → f.min_key_size = 0 → f.min_value_size = 0 →
      f.only_count = false → f.reverse = false →
      DbTool.list f rows =
        ((rows.drop f.skip).take f.len, min f.len (rows.drop f.skip).length)) := by
  refine ⟨?_, ?_, ?_⟩
  · intro f pat row
    rcases row with ⟨k, v⟩
    simp only [mapFilterRow, rowPassesSizes, rowMatchesSearch]
    split_ifs <;> simp_all <;> omega
  · intro f pat row hbad
    rcases row with ⟨k, v⟩
    by_cases hA : k.length + v.length < f.min_row_size
    · simp [mapFilterRow, hA]
    · by_cases hB : k.length < f.min_key_size
      · simp [mapFilterRow, hA, hB]
      · by_cases hC : v.length < f.min_value_size
        · simp [mapFilterRow, hA, hB, hC]
        · exact absurd ⟨show f.min_row_size ≤ k.length + v.length by omega,
            show f.min_key_size ≤ k.length by omega,
            show f.min_value_size ≤ v.length by omega⟩ hbad
  · intro f rows hs h1 h2 h3 h4 h5
    simp only [DbTool.list, hs, h5, if_true, Bool.false_eq_true, if_false]
    rw [listWalk_trivial f h1 h2 h3 h4]
    rw [Nat.zero_add]

/-- Counterexample to claim C10 as stated: on a single row whose key matches
the search but whose size is below `min_row_size`, the code records no hit
(`hits = 0`), while the claimed search-before-sizes order would record one
(`hits = 1`); so the byte search is not applied before the size thresholds. -/
theorem claim10_counterexample :
    DbTool.list
        { skip := 0, len := 1, search := [1], min_row_size := 5, min_key_size := 0,
          min_value_size := 0, reverse := false, only_count := false } [([1], [])] ≠
      DbToolListSearchBeforeSizes
        { skip := 0, len := 1, search := [1], min_row_size := 5, min_key_size := 0,
          min_value_size := 0, reverse := false, only_count := false } [([1], [])] ∧
    DbTool.list
        { skip := 0, len := 1, search := [1], min_row_size := 5, min_key_size := 0,
          min_value_size := 0, reverse := false, only_count := false } [([1], [])] =
      ([], 0) ∧
    DbToolListSearchBeforeSizes
        { skip := 0, len := 1, search := [1], min_row_size := 5, min_key_size := 0,
          min_value_size := 0, reverse := false, only_count := false } [([1], [])] =
      ([], 1) := by
  decide

/-- Witness for the amended claim C10: with no filtering active, `list`
pages via `skip` and `take`. -/
theorem claim10_witness :
    DbTool.list
        { skip := 1, len := 2, search := [], min_row_size := 0, min_key_size := 0,
          min_value_size := 0, reverse := false, only_count := false }
        [([0], [0]), ([1], [1]), ([2], [2]), ([3], [3])] =
      ([([1], [1]), ([2], [2])], 2) :=
  (claim10_amended_sizes_before_search.2.2
      { skip := 1, len := 2, search := [], min_row_size := 0, min_key_size := 0,
        min_value_size := 0, reverse := false, only_count := false }
      [([0], [0]), ([1], [1]), ([2], [2]), ([3], [3])] rfl rfl rfl rfl rfl rfl).trans
    (by decide)
